import Mathlib

/-!
# Verification of the `wad` DOOM-archive reader

A shallow embedding of the decoding and linking code of the `wad` Go
package (src/wad.go, src/picture.go, src/line.go), together with theorems
settling the frozen claims about it.

Modelling conventions:
* Go byte values are `Nat` (always < 256 where they come from a lump).
* Go `int16`/`int32`/`int` values are `Int`; arithmetic that Go performs
  at a fixed width is wrapped explicitly (`wrap16`).
* Go `float64` fields (vertex coordinates, bounding boxes, sound origins)
  are modelled as `Rat`.  Every value the decoders put into these fields
  is an integer far below 2^53, where float64 arithmetic is exact, except
  for the sentinel initialisers of `newBBox`: Go's constant conversions
  `float64(math.MaxInt) = 2^63` and `float64(math.MinInt) = -2^63` are
  used literally.  The concrete inputs of the theorems below are chosen so
  that every float64 operation on them is exact, hence the rational model
  computes the very numbers the Go code computes.
* Go runtime panics (index out of range, nil dereference, negative `make`
  size) and Go error returns both abort the surrounding top-level decode;
  both are modelled as `none` of an `Option`-valued function.
* Fallible loops whose position strictly advances are written with an
  explicit fuel argument so that they stay structurally recursive; the
  fuel is chosen from the lump length so that it can never be exhausted
  before the loop either terminates or fails (each iteration both requires
  the current position to be inside the lump and advances it), so the
  fuel-out branch returning `none` is unreachable or coincides with the
  out-of-range failure of the unbounded loop.
-/

namespace Wad

/-- Two bytes, little endian, read as a Go `int16` (src/wad.go uses
`binary.LittleEndian` throughout). -/
def i16 (lo hi : Nat) : Int :=
  let u : Nat := lo % 256 + 256 * (hi % 256)
  if u < 32768 then (u : Int) else (u : Int) - 65536

/-- Wrap an integer to Go `int16` two's-complement range, for arithmetic
the Go code performs at type `int16` (e.g. `header.Columns*header.Rows`). -/
def wrap16 (z : Int) : Int :=
  (z + 32768) % 65536 - 32768

/-- Four bytes, little endian, read as a Go `int32`. -/
def i32 (b0 b1 b2 b3 : Nat) : Int :=
  let u : Nat := b0 % 256 + 256 * (b1 % 256) + 65536 * (b2 % 256) + 16777216 * (b3 % 256)
  if u < 2147483648 then (u : Int) else (u : Int) - 4294967296

/-! ## REJECT decoding (src/wad.go, `readReject`, lines 1639-1664)

```go
numSectors := int(math.Sqrt(float64(8 * lumpInfo.Size)))
reject := make(Reject, numSectors)
for sector1 := range numSectors {
    reject[sector1] = make([]bool, numSectors)
    for sector2 := range numSectors {
        cell := sector1*numSectors + sector2
        i, j := cell/8, cell%8
        if (lump[i] << j) > 0 {
            reject[sector1][sector2] = true
        }
    }
}
```

`int(math.Sqrt(float64(8*size)))` equals `Nat.sqrt (8*size)` for every
realistic size (exactly whenever `8*size < 2^52`, far above the 2^31 bound
a lump size can reach, since the correctly rounded square root of a
non-square below 2^52 is never an integer).  `lump[i] << j` is Go `byte`
arithmetic: the shift is truncated to 8 bits.  The byte index `i` is
always below the lump length because `numSectors^2 <= 8*size`, so the
in-range read is modelled with `getD`. -/

/-- The decoded reject matrix: `readReject` of src/wad.go as a function of
the lump bytes (the lump length is the directory size, `readLump` having
read exactly that many bytes). -/
def readReject (lump : List Nat) : List (List Bool) :=
  let numSectors := Nat.sqrt (8 * lump.length)
  (List.range numSectors).map fun sector1 =>
    (List.range numSectors).map fun sector2 =>
      let cell := sector1 * numSectors + sector2
      decide ((lump.getD (cell / 8) 0) * 2 ^ (cell % 8) % 256 > 0)

/-! ## Picture decoding (src/picture.go, `GetPicture`)

The decoder reads the whole lump, parses the 8-byte header
`(width, height, leftOffset, topOffset)` as little-endian `int16`,
allocates `width` columns of `height` bytes filled with the transparent
index 255, reads `width` column offsets (`int32` each), and then expands
the post stream of every column:

```go
for columnIndex, offset := range offsets {
    for {
        topDelta := int(lump[offset]); offset += 1
        if topDelta == 255 { break }
        numPixels := int(lump[offset]); offset += 1
        offset += 1 // Padding
        for i := range numPixels {
            columns[columnIndex][topDelta+i] = lump[offset]; offset += 1
        }
        offset += 1 // Padding
    }
}
```

There is no clipping: `columns[columnIndex][topDelta+i]` panics as soon
as `topDelta+i` reaches the column height.  Reads `lump[offset]` panic
once `offset` leaves the lump.  Both aborts are `none` below. -/

/-- The inner pixel loop: write the `pixels` bytes into rows
`row, row+1, ...` of the column; a write beyond the column length is the
Go index-out-of-range panic. -/
def writePost : List Nat → Nat → List Nat → Option (List Nat)
  | col, _, [] => some col
  | col, row, p :: ps =>
    if row < col.length then writePost (col.set row p) (row + 1) ps else none

/-- The post loop of one column.  `fuel` only bounds the recursion: every
iteration requires `offset < lump.length` (the `topDelta` read) and moves
`offset` up by at least 4, so with the starting fuel of `runPosts` the
zero-fuel branch is reached only when `offset` is already past the lump,
where the unbounded loop fails on the same read. -/
def runPostsF (lump : List Nat) : Nat → Nat → List Nat → Option (List Nat)
  | 0, _, _ => none
  | fuel + 1, offset, col =>
    if offset < lump.length then
      if lump.getD offset 0 = 255 then some col
      else if offset + 1 < lump.length then
        if offset + 3 + lump.getD (offset + 1) 0 ≤ lump.length then
          match writePost col (lump.getD offset 0)
              ((lump.drop (offset + 3)).take (lump.getD (offset + 1) 0)) with
          | none => none
          | some col2 => runPostsF lump fuel (offset + 4 + lump.getD (offset + 1) 0) col2
        else none
      else none
    else none

/-- Run all posts of one column starting at byte `offset` of the lump. -/
def runPosts (lump : List Nat) (col : List Nat) (offset : Nat) : Option (List Nat) :=
  runPostsF lump (lump.length + 1) offset col

/-- Specification-side reading of the same post stream: the list of rows
targeted by its posts (`[topDelta, topDelta+numPixels)` for each post), in
stream order.  Mirrors `runPostsF` byte for byte; used to state which
cells the decoder writes. -/
def postRowsF (lump : List Nat) : Nat → Nat → Option (List Nat)
  | 0, _ => none
  | fuel + 1, offset =>
    if offset < lump.length then
      if lump.getD offset 0 = 255 then some []
      else if offset + 1 < lump.length then
        if offset + 3 + lump.getD (offset + 1) 0 ≤ lump.length then
          match postRowsF lump fuel (offset + 4 + lump.getD (offset + 1) 0) with
          | none => none
          | some rest =>
            some ((List.range (lump.getD (offset + 1) 0)).map (lump.getD offset 0 + ·) ++ rest)
        else none
      else none
    else none

/-- Rows written by the posts of the column starting at `offset`. -/
def postRows (lump : List Nat) (offset : Nat) : Option (List Nat) :=
  postRowsF lump (lump.length + 1) offset

/-- The in-memory picture: `Picture` of src/wad.go restricted to the
fields `GetPicture` fills (`Width`, `Height`, `Columns`). -/
structure Picture where
  width : Int
  height : Int
  columns : List (List Nat)
deriving DecidableEq

/-- The column-offset table: `width` little-endian `int32` values starting
at byte 8; `binary.Read` fails if the lump is too short. -/
def columnOffsets (lump : List Nat) (width : Nat) : Option (List Int) :=
  if 8 + 4 * width ≤ lump.length then
    some ((List.range width).map fun k =>
      i32 (lump.getD (8 + 4 * k) 0) (lump.getD (8 + 4 * k + 1) 0)
        (lump.getD (8 + 4 * k + 2) 0) (lump.getD (8 + 4 * k + 3) 0))
  else none

/-- Expand each column from its offset.  A negative offset is the Go
negative-index panic. -/
def decodeColumns (lump : List Nat) (height : Nat) : List Int → Option (List (List Nat))
  | [] => some []
  | off :: rest =>
    if 0 ≤ off then
      match runPosts lump (List.replicate height 255) off.toNat with
      | none => none
      | some col =>
        match decodeColumns lump height rest with
        | none => none
        | some cols => some (col :: cols)
    else none

/-- The whole of `GetPicture` after the lump bytes are in memory
(src/picture.go lines 45-90): header parse, transparent initialisation,
offset table, post expansion.  `width < 0` makes `make([]Column, width)`
panic; `height < 0` makes `make(Column, height)` panic as soon as one
column is allocated. -/
def decodePicture (lump : List Nat) : Option Picture :=
  if lump.length < 8 then none
  else
    let width := i16 (lump.getD 0 0) (lump.getD 1 0)
    let height := i16 (lump.getD 2 0) (lump.getD 3 0)
    if width < 0 then none
    else if 0 < width ∧ height < 0 then none
    else
      match columnOffsets lump width.toNat with
      | none => none
      | some offs =>
        match decodeColumns lump height.toNat offs with
        | none => none
        | some cols => some { width := width, height := height, columns := cols }

/-! ## Level data model (src/wad.go, src/line.go)

Pointers of the Go object graph are modelled as indices into the owning
arrays of the `Level` (`Option Nat`, `none` for a nil pointer).  Fields
that the decoders fill before `setReferences` runs carry their raw value;
derived fields carry the Go zero value as default, exactly what a freshly
decoded record holds. -/

/-- Go slice indexing with an `int` index: out of range (including
negative) is a runtime panic. -/
def idxGet (xs : List α) (i : Int) : Option α :=
  if 0 ≤ i then xs.get? i.toNat else none

/-- Sequential fallible loop over a list: the Go `for` loops of
`setReferences`, a panic anywhere aborting the whole pass. -/
def mapOpt (f : α → Option β) : List α → Option (List β)
  | [] => some []
  | x :: xs =>
    match f x with
    | none => none
    | some y =>
      match mapOpt f xs with
      | none => none
      | some ys => some (y :: ys)

structure Vertex where
  x : Rat
  y : Rat
deriving DecidableEq

/-- `SlopeType` of src/line.go; the Go zero value is `horizontal`. -/
inductive SlopeType
  | horizontal
  | vertical
  | positive
  | negative
deriving DecidableEq

/-- `BoundBox` of src/wad.go (field order Top, Bottom, Left, Right). -/
structure BoundBox where
  top : Rat
  bottom : Rat
  left : Rat
  right : Rat
deriving DecidableEq

/-- `BlockBox` of src/wad.go. -/
structure BlockBox where
  top : Int
  bottom : Int
  left : Int
  right : Int
deriving DecidableEq

structure Point where
  x : Rat
  y : Rat
  z : Rat
deriving DecidableEq

/-- `Side`, restricted to the fields the linker touches: the raw sector
number and the derived sector reference. -/
structure Side where
  sectorNum : Int
  sector : Option Nat := none
deriving DecidableEq

/-- `Line` (src/line.go), restricted to the fields the linker reads or
writes. -/
structure Line where
  v1Num : Int
  v2Num : Int
  twoSided : Bool
  sectorTagNum : Int
  sideRNum : Int
  sideLNum : Int
  v1 : Vertex := ⟨0, 0⟩
  v2 : Vertex := ⟨0, 0⟩
  dx : Rat := 0
  dy : Rat := 0
  taggedSectors : List Nat := []
  sideR : Option Nat := none
  sideL : Option Nat := none
  boundingBox : BoundBox := ⟨0, 0, 0, 0⟩
  slopeType : SlopeType := SlopeType.horizontal
  frontSector : Option Nat := none
  backSector : Option Nat := none
deriving DecidableEq

/-- `LineSegment`, restricted to the fields the linker touches. -/
structure Seg where
  v1Num : Int
  v2Num : Int
  lineNum : Int
  isSideL : Bool
  v1 : Vertex := ⟨0, 0⟩
  v2 : Vertex := ⟨0, 0⟩
  sideNum : Option Nat := none
  frontSector : Option Nat := none
  backSector : Option Nat := none
deriving DecidableEq

/-- `Sector`, restricted to the fields the linker reads or writes. -/
structure Sector where
  tagNum : Int
  lines : List Nat := []
  soundOrigin : Point := ⟨0, 0, 0⟩
  blockBox : BlockBox := ⟨0, 0, 0, 0⟩
deriving DecidableEq

/-- The blockmap header fields the sector pass reads. -/
structure BlockMapHdr where
  originX : Rat
  originY : Rat
  numColumns : Int
  numRows : Int
deriving DecidableEq

/-- The decoded level tables that `setReferences` links. -/
structure Level where
  lines : List Line
  sides : List Side
  vertexes : List Vertex
  segs : List Seg
  sectors : List Sector
  blockMap : BlockMapHdr
deriving DecidableEq

/-! ## The linker (src/wad.go, `setReferences`, lines 1189-1342) -/

/-- Pass 1, sides: `l.Sides[i].Sector = &l.Sectors[l.Sides[i].SectorNum]`
(line 1194).  An out-of-range sector number panics. -/
def linkSide (numSectors : Nat) (s : Side) : Option Side :=
  if 0 ≤ s.sectorNum ∧ s.sectorNum.toNat < numSectors then
    some { s with sector := some s.sectorNum.toNat }
  else none

def linkSides (numSectors : Nat) (sides : List Side) : Option (List Side) :=
  mapOpt (linkSide numSectors) sides

/-- Pass 2, lines (source lines 1198-1236): vertexes, deltas, side and
sector references, tagged sectors, slope type, and the bounding box.  The
box is assigned exactly as written in the source:

```go
li.BoundingBox.Left = min(li.V1.X, li.V2.X)
li.BoundingBox.Right = max(li.V1.X, li.V2.X)
li.BoundingBox.Bottom = min(li.V1.Y, li.V2.Y)
li.BoundingBox.Left = max(li.V1.Y, li.V2.Y)
```

so `Left` is written twice and `Top` never. -/
def linkLine (vertexes : List Vertex) (sides : List Side) (sectors : List Sector)
    (li : Line) : Option Line :=
  match idxGet vertexes li.v1Num, idxGet vertexes li.v2Num with
  | some v1, some v2 =>
    let dx := v2.x - v1.x
    let dy := v2.y - v1.y
    match (if 0 ≤ li.sideRNum then
            match sides.get? li.sideRNum.toNat with
            | none => none
            | some sd => some (some li.sideRNum.toNat, sd.sector)
          else some (li.sideR, li.frontSector)) with
    | none => none
    | some (sideR, frontSector) =>
      match (if 0 ≤ li.sideLNum then
              match sides.get? li.sideLNum.toNat with
              | none => none
              | some sd => some (some li.sideLNum.toNat, sd.sector)
            else some (li.sideL, li.backSector)) with
      | none => none
      | some (sideL, backSector) =>
        let taggedSectors := li.taggedSectors ++
          (sectors.enum.filter fun p => p.2.tagNum = li.sectorTagNum).map Prod.fst
        let slopeType :=
          if dx = 0 then SlopeType.vertical
          else if dy = 0 then SlopeType.horizontal
          else if dy / dx > 0 then SlopeType.positive
          else SlopeType.negative
        let bb1 : BoundBox :=
          { li.boundingBox with
              left := min v1.x v2.x
              right := max v1.x v2.x
              bottom := min v1.y v2.y }
        let bb2 : BoundBox := { bb1 with left := max v1.y v2.y }
        some { li with
                v1 := v1, v2 := v2, dx := dx, dy := dy
                sideR := sideR, sideL := sideL
                frontSector := frontSector, backSector := backSector
                taggedSectors := taggedSectors
                slopeType := slopeType
                boundingBox := bb2 }
  | _, _ => none

/-- Pass 3, segments (source lines 1240-1258): side chosen by the
direction flag, front sector from that side, back sector from the
opposite side only on a two-sided line. -/
def linkSegment (vertexes : List Vertex) (sides : List Side) (lines : List Line)
    (s : Seg) : Option Seg :=
  match idxGet vertexes s.v1Num, idxGet vertexes s.v2Num with
  | some v1, some v2 =>
    match idxGet lines s.lineNum with
    | none => none
    | some line =>
      match idxGet sides (if s.isSideL then line.sideLNum else line.sideRNum) with
      | none => none
      | some side =>
        match (if line.twoSided then
                match idxGet sides (if s.isSideL then line.sideRNum else line.sideLNum) with
                | none => none
                | some opp => some opp.sector
              else some s.backSector) with
        | none => none
        | some backSector =>
          some { s with
                  v1 := v1, v2 := v2
                  sideNum := some (if s.isSideL then line.sideLNum.toNat else line.sideRNum.toNat)
                  frontSector := side.sector
                  backSector := backSector }
  | _, _ => none

/-- `MaxRadius` (src/wad.go line 1346). -/
def MaxRadius : Rat := 32

/-- `newBBox` (lines 1348-1355).  The Go literal converts the untyped
constants `math.MaxInt` and `math.MinInt` to `float64`, giving exactly
`2^63` and `-2^63`. -/
def newBBox : BoundBox :=
  { left := (2 : Rat) ^ 63
    right := -(2 : Rat) ^ 63
    bottom := (2 : Rat) ^ 63
    top := -(2 : Rat) ^ 63 }

/-- `BoundBox.add` (lines 1357-1362), exactly as in the source: the last
line is `b.Top = min(b.Top, v.Y)`. -/
def BoundBox.add (b : BoundBox) (v : Vertex) : BoundBox :=
  { left := min b.left v.x
    right := max b.right v.x
    bottom := min b.bottom v.y
    top := min b.top v.y }

/-- Go `int(x)` on a `float64`: truncation toward zero. -/
def ratTrunc (q : Rat) : Int :=
  q.num.tdiv (q.den : Int)

/-- Pass 6, one sector (source lines 1288-1316): collect the lines whose
front or back sector is this sector (pointer comparison = index
comparison), grow a vertex bound box over their endpoints, set the sound
origin to the middle of that box, and convert the box to block
coordinates.  The four block assignments are kept in source order: the
`Right` slot is written twice (first from the right edge, then from the
left edge), and the `Left` slot is never written. -/
def linkSector (lines : List Line) (bm : BlockMapHdr) (i : Nat) (s : Sector) : Sector :=
  let matched := lines.enum.filter fun p => p.2.frontSector = some i ∨ p.2.backSector = some i
  let secLines := s.lines ++ matched.map Prod.fst
  let bbox := matched.foldl (fun b p => (b.add p.2.v1).add p.2.v2) newBBox
  let soundOrigin : Point :=
    { s.soundOrigin with
        x := (bbox.right + bbox.left) / 2
        y := (bbox.top + bbox.bottom) / 2 }
  let blockT := ratTrunc (bbox.top - bm.originY + MaxRadius)
  let blockB := ratTrunc (bbox.bottom - bm.originY - MaxRadius)
  let blockR := ratTrunc (bbox.right - bm.originX + MaxRadius)
  let blockL := ratTrunc (bbox.left - bm.originX - MaxRadius)
  let bb1 : BlockBox :=
    { s.blockBox with
        top := min blockT (bm.numRows - 1)
        bottom := max blockB 0
        right := min blockR (bm.numColumns - 1) }
  let bb2 : BlockBox := { bb1 with right := max blockL 0 }
  { s with lines := secLines, soundOrigin := soundOrigin, blockBox := bb2 }

def linkSectors (lines : List Line) (bm : BlockMapHdr) (sectors : List Sector) : List Sector :=
  sectors.enum.map fun p => linkSector lines bm p.1 p.2

/-- `setReferences` (lines 1189-1342), restricted to the passes that
write any field a claim below mentions: sides, lines, segments, sectors.
The omitted passes (subsectors, nodes, root node, blockmap back-refs)
only fill subsector, node and block fields; since they can themselves
panic, a level Go returns is one on which this function also succeeds,
so properties proved under success of this function hold of every level
Go produces. -/
def setReferences (l : Level) : Option Level :=
  match linkSides l.sectors.length l.sides with
  | none => none
  | some sides =>
    match mapOpt (linkLine l.vertexes sides l.sectors) l.lines with
    | none => none
    | some lines =>
      match mapOpt (linkSegment l.vertexes sides lines) l.segs with
      | none => none
      | some segs =>
        some { l with sides := sides, lines := lines, segs := segs,
                      sectors := linkSectors lines l.blockMap l.sectors }

/-! ## Texture compositing (src/wad.go, `readTextures`, lines 854-878)

```go
picture := &Picture{ ... Columns: make([]Column, int(texture.Width)) }
for i := range picture.Columns {
    picture.Columns[i] = make([]byte, int(texture.Height))
}
for _, p := range texture.Patches {
    sourceYOffset := 0
    if p.YOffset < 0 {
        sourceYOffset = -p.YOffset
        p.YOffset = 0
    }
    for y, c := range p.Picture.Columns {
        if p.XOffset+y >= 0 && p.XOffset+y < len(picture.Columns) {
            copy(picture.Columns[p.XOffset+y][p.YOffset:], c[sourceYOffset:])
        }
    }
}
```

`make([]byte, n)` zero-fills, so the canvas starts at byte 0, not at the
transparent index.  A nil `p.Picture` (a patch whose lump was missing)
panics on the `p.Picture.Columns` dereference.  The slice expressions
panic when `p.YOffset` exceeds the column length or `sourceYOffset`
exceeds the patch column length. -/

/-- One texture patch record after lookup: offsets plus the columns of
the referenced picture (`none` for a nil picture reference). -/
structure Patch where
  xOffset : Int
  yOffset : Int
  picture : Option (List (List Nat))
deriving DecidableEq

/-- Go `copy(dst[start:], src)`: overwrite
`min (src.length) (dst.length - start)` entries of `dst` from position
`start` on; the caller has checked `start ≤ dst.length`. -/
def copyInto (dst : List Nat) (start : Nat) (src : List Nat) : List Nat :=
  dst.take start ++ src.take (dst.length - start) ++ dst.drop (start + src.length)

/-- The per-patch column loop (`for y, c := range p.Picture.Columns`). -/
def blitCols (xOff : Int) (dyo syo : Nat) :
    List (List Nat) → Nat → List (List Nat) → Option (List (List Nat))
  | [], _, cols => some cols
  | c :: rest, y, cols =>
    if 0 ≤ xOff + (y : Int) ∧ xOff + (y : Int) < (cols.length : Int) then
      match cols.get? (xOff + (y : Int)).toNat with
      | none => none
      | some dst =>
        if dyo ≤ dst.length ∧ syo ≤ c.length then
          blitCols xOff dyo syo rest (y + 1)
            (cols.set (xOff + (y : Int)).toNat (copyInto dst dyo (c.drop syo)))
        else none
    else blitCols xOff dyo syo rest (y + 1) cols

/-- Blit one patch onto the canvas. -/
def blitPatch (cols : List (List Nat)) (p : Patch) : Option (List (List Nat)) :=
  match p.picture with
  | none => none
  | some pcols =>
    let syo : Nat := (if p.yOffset < 0 then -p.yOffset else 0).toNat
    let dyo : Nat := (if p.yOffset < 0 then 0 else p.yOffset).toNat
    blitCols p.xOffset dyo syo pcols 0 cols

/-- The composite `texture.Picture.Columns`: a `width × height` canvas of
zero bytes with every patch blitted over it in patch order. -/
def compositePicture (width height : Nat) (patches : List Patch) : Option (List (List Nat)) :=
  patches.foldl (fun acc p => acc.bind fun cols => blitPatch cols p)
    (some (List.replicate width (List.replicate height 0)))

/-- Specification-side coverage: patch `p` writes cell `(x, r)` of a
height-`height` canvas.  Mirrors the guard and the `copy` extent of the
blit loop. -/
def patchCovers (height : Nat) (p : Patch) (x r : Nat) : Prop :=
  ∃ pcols c y, p.picture = some pcols ∧ pcols.get? y = some c ∧
    (x : Int) = p.xOffset + (y : Int) ∧
    (if p.yOffset < 0 then 0 else p.yOffset).toNat ≤ r ∧
    r < (if p.yOffset < 0 then 0 else p.yOffset).toNat +
        min (c.length - (if p.yOffset < 0 then -p.yOffset else 0).toNat)
          (height - (if p.yOffset < 0 then 0 else p.yOffset).toNat)

/-! ## Blockmap decoding (src/wad.go, `readBlockmap`, lines 1666-1716)

Header of four `int16`, then `Columns*Rows` (an `int16` product) block
list offsets, each in 16-bit words from the lump start; for each offset
the code slices `lump[2*o:]` and reads 16-bit words, dropping `0x0000`
and stopping at `0xffff`:

```go
for _, o := range offsets {
    reader := bytes.NewBuffer(lump[2*o:])
    var binlineNum binBlockLineNum
    lineNums := make([]int, 0)
    for binlineNum != 0xffff {
        if err := binary.Read(reader, binary.LittleEndian, &binlineNum); err != nil { ... }
        if binlineNum != 0 && binlineNum != 0xffff {
            lineNums = append(lineNums, int(binlineNum))
        }
    }
    blockMap.Blocks = append(blockMap.Blocks, Block{LineNums: lineNums})
}
```

No offset is ever compared against 4 or the lump size, and the code can
return no `BadLump`-style error: an offset beyond the lump panics on the
slice expression, and any in-range offset — the header included — is
happily decoded. -/

/-- `BlockMap` as `readBlockmap` fills it (origins still the raw header
values; each block its `LineNums` list). -/
structure BlockMapRead where
  originX : Int
  originY : Int
  numColumns : Int
  numRows : Int
  blocks : List (List Nat)
deriving DecidableEq

/-- Read 16-bit words from `pos` until `0xffff`, keeping the non-zero
non-sentinel ones.  Every iteration needs 2 more bytes (else
`binary.Read` fails) and advances by 2, so the starting fuel of
`readBlockList` outlasts any run. -/
def readU16s (lump : List Nat) : Nat → Nat → List Nat → Option (List Nat)
  | 0, _, _ => none
  | fuel + 1, pos, acc =>
    if pos + 2 ≤ lump.length then
      let v := lump.getD pos 0 % 256 + 256 * (lump.getD (pos + 1) 0 % 256)
      if v = 65535 then some acc
      else readU16s lump fuel (pos + 2) (if v = 0 then acc else acc ++ [v])
    else none

/-- One block list: slice at `2*o` (16-bit arithmetic; out of range
panics) and scan to the terminator. -/
def readBlockList (lump : List Nat) (off : Int) : Option (List Nat) :=
  let start := wrap16 (2 * off)
  if 0 ≤ start ∧ start ≤ (lump.length : Int) then
    readU16s lump (lump.length + 1) start.toNat []
  else none

/-- `readBlockmap` on the in-memory lump bytes. -/
def readBlockmap (lump : List Nat) : Option BlockMapRead :=
  if lump.length < 8 then none
  else
    let originX := i16 (lump.getD 0 0) (lump.getD 1 0)
    let originY := i16 (lump.getD 2 0) (lump.getD 3 0)
    let columns := i16 (lump.getD 4 0) (lump.getD 5 0)
    let rows := i16 (lump.getD 6 0) (lump.getD 7 0)
    let count := wrap16 (columns * rows)
    if count < 0 then none
    else if 8 + 2 * count.toNat ≤ lump.length then
      let offsets := (List.range count.toNat).map fun k =>
        i16 (lump.getD (8 + 2 * k) 0) (lump.getD (8 + 2 * k + 1) 0)
      match mapOpt (readBlockList lump) offsets with
      | none => none
      | some blocks => some ⟨originX, originY, columns, rows, blocks⟩
    else none

/-! ## Level lookup (src/wad.go, `ReadLevel`, lines 1105-1186)

```go
level := Level{}
levelIdx := w.levels[name]
for i := levelIdx + 1; i < levelIdx+11; i++ {
    lumpInfo := w.lumpInfos[i]
    ...
    switch name { case "THINGS": ... default: logger.Printf("Unhandled lump %s\n", name) }
}
```

A Go map read of an absent key yields the zero value, so an unknown level
name silently becomes directory index 0; there is no error path for it.
The loop then dispatches the directory entries `1..10` by name. -/

structure LumpInfo where
  name : String
  filepos : Nat
  size : Nat
deriving DecidableEq

/-- The archive state `ReadLevel` consults: the directory and the level
index built by `readInfoTables`. -/
structure Archive where
  lumpInfos : List LumpInfo
  levels : List (String × Nat)
deriving DecidableEq

/-- `w.levels[name]`: Go map access with the zero value 0 for a missing
key. -/
def levelIndex (w : Archive) (name : String) : Nat :=
  (w.levels.lookup name).getD 0

/-- The `(index, lump name)` pairs `ReadLevel` visits and dispatches: the
ten directory entries after the level index (an index past the directory
is the Go out-of-range panic). -/
def readLevelLumps (w : Archive) (name : String) : Option (List (Nat × String)) :=
  mapOpt (fun i => (w.lumpInfos.get? i).map fun li => (i, li.name))
    (List.range' (levelIndex w name + 1) 10)

/-! ## Concrete inputs used by the theorems -/

/-- A line from (0,5) to (3,2) with no sides: input for the line
bounding-box computation. -/
def vertsC1 : List Vertex := [⟨0, 5⟩, ⟨3, 2⟩]

def lineC1 : Line :=
  { v1Num := 0, v2Num := 1, twoSided := false, sectorTagNum := 0
    sideRNum := -1, sideLNum := -1 }

/-- A one-sector level whose single line runs from (0,0) to (4,2), its
right side in sector 0. -/
def lvlC2 : Level :=
  { lines := [{ v1Num := 0, v2Num := 1, twoSided := false, sectorTagNum := 0
                sideRNum := 0, sideLNum := -1 }]
    sides := [{ sectorNum := 0 }]
    vertexes := [⟨0, 0⟩, ⟨4, 2⟩]
    segs := []
    sectors := [{ tagNum := 0 }]
    blockMap := ⟨0, 0, 10, 10⟩ }

/-- A one-sector level whose single line runs from (100,100) to
(200,200), blockmap origin (0,0) with 1000 columns and rows. -/
def lvlC3 : Level :=
  { lines := [{ v1Num := 0, v2Num := 1, twoSided := false, sectorTagNum := 0
                sideRNum := 0, sideLNum := -1 }]
    sides := [{ sectorNum := 0 }]
    vertexes := [⟨100, 100⟩, ⟨200, 200⟩]
    segs := []
    sectors := [{ tagNum := 0 }]
    blockMap := ⟨0, 0, 1000, 1000⟩ }

/-- A picture lump: width 1, height 2, one column at offset 12 holding a
single post `topDelta 0, 1 pixel of value 7`. -/
def lumpC7 : List Nat := [1, 0, 2, 0, 0, 0, 0, 0, 12, 0, 0, 0, 0, 1, 0, 7, 0, 255]

/-- The picture `GetPicture` builds from `lumpC7`. -/
def picC7 : Picture := ⟨1, 2, [[7, 255]]⟩

/-- A picture lump: width 1, height 1, one column at offset 12 whose post
has `topDelta 0` and `pixelCount 2`, overflowing the column. -/
def lumpC6 : List Nat := [1, 0, 1, 0, 0, 0, 0, 0, 12, 0, 0, 0, 0, 2, 0, 9, 9, 0, 255]

/-- A BLOCKMAP lump: origin (-1, 0), 1 column, 1 row, and a single
block-list offset of 0 — pointing into the header, below the malformed
threshold of 4 the specification postulates. -/
def lumpC8 : List Nat := [255, 255, 0, 0, 1, 0, 1, 0, 0, 0]

/-- A level with one sector, two sides into it, one two-sided line and
one segment on the line's right side. -/
def segLvl : Level :=
  { lines := [{ v1Num := 0, v2Num := 1, twoSided := true, sectorTagNum := 0
                sideRNum := 0, sideLNum := 1 }]
    sides := [{ sectorNum := 0 }, { sectorNum := 0 }]
    vertexes := [⟨0, 0⟩, ⟨1, 1⟩]
    segs := [{ v1Num := 0, v2Num := 1, lineNum := 0, isSideL := false }]
    sectors := [{ tagNum := 5 }]
    blockMap := ⟨0, 0, 1, 1⟩ }

/-- The level `setReferences` produces from `segLvl` (sound origin and
block box carry the values of the linker as written, sentinel and all). -/
def segLvlLinked : Level :=
  { lines := [{ v1Num := 0, v2Num := 1, twoSided := true, sectorTagNum := 0
                sideRNum := 0, sideLNum := 1
                v1 := ⟨0, 0⟩, v2 := ⟨1, 1⟩, dx := 1, dy := 1
                taggedSectors := [], sideR := some 0, sideL := some 1
                boundingBox := ⟨0, 0, 1, 1⟩, slopeType := SlopeType.positive
                frontSector := some 0, backSector := some 0 }]
    sides := [{ sectorNum := 0, sector := some 0 }, { sectorNum := 0, sector := some 0 }]
    vertexes := [⟨0, 0⟩, ⟨1, 1⟩]
    segs := [{ v1Num := 0, v2Num := 1, lineNum := 0, isSideL := false
               v1 := ⟨0, 0⟩, v2 := ⟨1, 1⟩, sideNum := some 0
               frontSector := some 0, backSector := some 0 }]
    sectors := [{ tagNum := 5, lines := [0]
                  soundOrigin := ⟨1 / 2, -(2 ^ 62), 0⟩
                  blockBox := ⟨-(2 ^ 63) + 32, 0, 0, 0⟩ }]
    blockMap := ⟨0, 0, 1, 1⟩ }

/-- The linked segment inside `segLvlLinked`. -/
def segLinked : Seg :=
  { v1Num := 0, v2Num := 1, lineNum := 0, isSideL := false
    v1 := ⟨0, 0⟩, v2 := ⟨1, 1⟩, sideNum := some 0
    frontSector := some 0, backSector := some 0 }

/-- A 1×1-column patch of pixel value 5 at offset (0,0). -/
def patchC5 : Patch := ⟨0, 0, some [[5]]⟩

/-- An archive whose directory holds a level at index 0 followed by the
ten level lumps; the level index knows only `E1M1`. -/
def archC10 : Archive :=
  { lumpInfos := [⟨"E1M1", 0, 0⟩, ⟨"THINGS", 0, 0⟩, ⟨"LINEDEFS", 0, 0⟩,
      ⟨"SIDEDEFS", 0, 0⟩, ⟨"VERTEXES", 0, 0⟩, ⟨"SEGS", 0, 0⟩, ⟨"SSECTORS", 0, 0⟩,
      ⟨"NODES", 0, 0⟩, ⟨"SECTORS", 0, 0⟩, ⟨"REJECT", 0, 0⟩, ⟨"BLOCKMAP", 0, 0⟩]
    levels := [("E1M1", 0)] }

/-! ## Theorems -/

/-- C1.  The claim says that after linking every line has
`left = min(v1.x, v2.x)`, `right = max(v1.x, v2.x)`,
`bottom = min(v1.y, v2.y)`, `top = max(v1.y, v2.y)`, so in particular
`left ≤ right`.  On the line from (0,5) to (3,2) the code instead
produces `left = 5` (the fourth assignment of the source overwrites
`Left` with `max(v1.y, v2.y)`), `top = 0` (never assigned), and hence
`left ≤ right` fails: 5 > 3.  The box fields are listed in source order
top, bottom, left, right. -/
theorem C1_line_bbox_bug :
    (linkLine vertsC1 [] [] lineC1).map (fun li => li.boundingBox) =
      some ⟨0, 2, 5, 3⟩ ∧
    ¬((5 : Rat) ≤ 3) := by
  constructor
  · norm_num [linkLine, idxGet, vertsC1, lineC1, min_def, max_def]
  · norm_num

/-- C2.  The claim says the sound origin of a sector with at least one
line is the centre of the bounding box of those lines' endpoints.  On the
one-sector level `lvlC2` (single line from (0,0) to (4,2)) the linked
sector's sound origin is `(2, -2^62, 0)`: `BoundBox.add` computes `Top`
with `min`, so the top stays at the initialiser `-2^63`
(= `float64(math.MinInt)`), and `(top + bottom) / 2 = -2^62` instead of
the claimed `(max(0,2) + min(0,2)) / 2 = 1`.  All float64 operations on
this input are exact, so the rational model reproduces the Go values. -/
theorem C2_sound_origin_bug :
    (setReferences lvlC2).map (fun l => l.sectors.map fun s => s.soundOrigin) =
      some [⟨2, -(2 ^ 62), 0⟩] ∧
    -((2 : Rat) ^ 62) ≠ (max (0 : Rat) 2 + min (0 : Rat) 2) / 2 := by
  constructor
  · norm_num [setReferences, linkSides, linkSide, linkLine, linkSectors, linkSector,
      mapOpt, idxGet, lvlC2, min_def, max_def, newBBox, BoundBox.add, List.enum,
      MaxRadius, ratTrunc]
  · norm_num [min_def, max_def]

/-- C3.  The claim says every field of the sector's `BlockBox` holds the
clamped block coordinate of the corresponding world-bbox edge, in
particular `left = max(trunc(left_world - originX - 32), 0)`.  On `lvlC3`
(single line from (100,100) to (200,200), origin (0,0)) the code yields
`BlockBox = (top = -2^63+32, bottom = 68, left = 0, right = 68)`: `Left`
is never assigned (stays the zero value 0) and `Right` is overwritten by
the left-edge value 68, while the claimed left block is
`max(trunc(min(100,200) - 0 - 32), 0) = 68 ≠ 0`.  (The top field also
carries the `-2^63` sentinel of the `BoundBox.add` bug; on this input the
only inexact float64 step, `-2^63 + 32`, rounds to `-2^63` in Go while
the rational model keeps `-2^63 + 32` — both wildly below the claimed
value, leaving the verdict unchanged.) -/
theorem C3_blockbox_bug :
    (setReferences lvlC3).map (fun l => l.sectors.map fun s => s.blockBox) =
      some [⟨-(2 ^ 63) + 32, 68, 0, 68⟩] ∧
    (0 : Int) ≠ max (ratTrunc (min (100 : Rat) 200 - 0 - MaxRadius)) 0 := by
  constructor
  · norm_num [setReferences, linkSides, linkSide, linkLine, linkSectors, linkSector,
      mapOpt, idxGet, lvlC3, min_def, max_def, newBBox, BoundBox.add, List.enum,
      MaxRadius, ratTrunc]
  · norm_num [min_def, ratTrunc, MaxRadius]

/-- C4.  The claim says entry (s1,s2) of the decoded reject is true iff
bit `cell % 8` of lump byte `cell / 8` is set, `cell = s1*N + s2`.  On
the one-byte lump `[0x01]` (N = isqrt(8) = 2) the decoder marks entry
(0,1) true — `(lump[0] << 1) > 0` holds because the code shifts left and
compares the whole byte with zero — although bit 1 of byte 0 is clear. -/
theorem C4_reject_bit_bug :
    ((readReject [1]).getD 0 []).getD 1 false = true ∧ Nat.testBit 1 1 = false := by
  have h : Nat.sqrt 8 = 2 := (Nat.eq_sqrt.mpr (by norm_num)).symm
  refine ⟨?_, by decide⟩
  unfold readReject
  simp only [List.length_cons, List.length_nil]
  norm_num [h]

/-- C6.  The claim says a post with `topDelta + pixelCount > height` is
clipped to the column height and decoding is total.  On `lumpC6`
(width 1, height 1, one post with `topDelta 0`, `pixelCount 2`) the
decoder instead indexes row 1 of a 1-row column — a Go out-of-range
panic, `none` in the model: the write loop `writePost` aborts and the
whole decode fails rather than clip. -/
theorem C6_post_clip_bug :
    decodePicture lumpC6 = none ∧
    writePost (List.replicate 1 255) 0 [9, 9] = none := ⟨rfl, rfl⟩

/-- C8.  The claim says a BLOCKMAP lump with a block-list offset below 4
(or past the lump) fails with a `BadLump` error.  On `lumpC8` — a 1×1
blockmap whose single offset is 0, pointing at the header — decoding
instead succeeds, scanning the header bytes (origin X = -1 = 0xffff is
taken as the terminator) and returning one block with no lines.  The
offset stored in the lump is 0 < 4. -/
theorem C8_blockmap_offset_bug :
    readBlockmap lumpC8 = some ⟨-1, 0, 1, 1, [[]]⟩ ∧
    i16 (lumpC8.getD 8 0) (lumpC8.getD 9 0) = 0 ∧ (0 : Int) < 4 := by
  refine ⟨?_, by decide, by decide⟩
  decide

/-- Helper: a row that is not among the `n` rows targeted from `t` lies
before `t` or at `t + n` or beyond. -/
theorem not_mem_range_map_add {t n r : Nat} (h : r ∉ (List.range n).map (t + ·)) :
    r < t ∨ t + n ≤ r := by
  by_contra hc
  push_neg at hc
  exact h (List.mem_map.mpr ⟨r - t, List.mem_range.mpr (by omega), by omega⟩)

/-- Helper: `writePost` preserves the column length and every row outside
`[row, row + pixels.length)`. -/
theorem writePost_spec :
    ∀ {ps col : List Nat} {row : Nat} {col2 : List Nat},
      writePost col row ps = some col2 →
      col2.length = col.length ∧
      ∀ r, r < row ∨ row + ps.length ≤ r → col2.get? r = col.get? r := by
  intro ps
  induction ps with
  | nil =>
    intro col row col2 h
    cases h
    exact ⟨rfl, fun r _ => rfl⟩
  | cons p ps ih =>
    intro col row col2 h
    simp only [writePost] at h
    split at h
    case isTrue hlt =>
      obtain ⟨hlen, hget⟩ := ih h
      rw [List.length_set] at hlen
      refine ⟨hlen, fun r hr => ?_⟩
      simp only [List.length_cons] at hr
      have hr2 : r < row + 1 ∨ (row + 1) + ps.length ≤ r := by omega
      have hne : row ≠ r := by omega
      rw [hget r hr2]
      simp [List.get?_eq_getElem?, List.getElem?_set_ne hne]
    case isFalse => exact absurd h (by simp)

/-- Helper: a successful post run reports the targeted rows through
`postRowsF`, keeps the column length, and leaves untargeted rows
untouched. -/
theorem runPostsF_spec {lump : List Nat} :
    ∀ {fuel offset : Nat} {col col2 : List Nat},
      runPostsF lump fuel offset col = some col2 →
      ∃ rows, postRowsF lump fuel offset = some rows ∧
        col2.length = col.length ∧
        ∀ r, r ∉ rows → col2.get? r = col.get? r := by
  intro fuel
  induction fuel with
  | zero =>
    intro offset col col2 h
    simp [runPostsF] at h
  | succ fuel ih =>
    intro offset col col2 h
    rw [runPostsF] at h
    split at h
    case isFalse => exact absurd h (by simp)
    case isTrue hoff =>
    split at h
    case isTrue h255 =>
      cases h
      refine ⟨[], ?_, rfl, fun r _ => rfl⟩
      rw [postRowsF, if_pos hoff, if_pos h255]
    case isFalse h255 =>
    split at h
    case isFalse => exact absurd h (by simp)
    case isTrue hoff1 =>
    split at h
    case isFalse => exact absurd h (by simp)
    case isTrue hbound =>
    split at h
    case h_1 => exact absurd h (by simp)
    case h_2 col1 hwp =>
      obtain ⟨rows, hrows, hlen, hget⟩ := ih h
      obtain ⟨hlen1, hget1⟩ := writePost_spec hwp
      have hpix : ((lump.drop (offset + 3)).take (lump.getD (offset + 1) 0)).length
          = lump.getD (offset + 1) 0 := by
        rw [List.length_take, List.length_drop]
        omega
      refine ⟨(List.range (lump.getD (offset + 1) 0)).map (lump.getD offset 0 + ·) ++ rows,
        ?_, ?_, ?_⟩
      · rw [postRowsF, if_pos hoff, if_neg h255, if_pos hoff1, if_pos hbound, hrows]
      · rw [hlen, hlen1]
      · intro r hr
        rw [List.mem_append] at hr
        push_neg at hr
        rw [hget r hr.2, hget1 r ?_]
        have := not_mem_range_map_add hr.1
        rw [hpix]
        omega

/-- Helper: a successful column decode pairs every produced column with
its offset and post run. -/
theorem decodeColumns_spec {lump : List Nat} {height : Nat} :
    ∀ {offs : List Int} {cols : List (List Nat)},
      decodeColumns lump height offs = some cols →
      cols.length = offs.length ∧
      ∀ {i : Nat} {col : List Nat}, cols.get? i = some col →
        ∃ off, offs.get? i = some off ∧ 0 ≤ off ∧
          runPosts lump (List.replicate height 255) off.toNat = some col := by
  intro offs
  induction offs with
  | nil =>
    intro cols h
    cases h
    exact ⟨rfl, fun {i col} hc => by simp at hc⟩
  | cons off offs ih =>
    intro cols h
    simp only [decodeColumns] at h
    split at h
    case isFalse => exact absurd h (by simp)
    case isTrue hoff =>
    split at h
    case h_1 => exact absurd h (by simp)
    case h_2 col0 hrun =>
    split at h
    case h_1 => exact absurd h (by simp)
    case h_2 cols0 hrest =>
    cases h
    obtain ⟨hlen, hspec⟩ := ih hrest
    refine ⟨by simpa using hlen, fun {i col} hc => ?_⟩
    match i with
    | 0 =>
      cases hc
      exact ⟨off, rfl, hoff, hrun⟩
    | i + 1 =>
      obtain ⟨o, ho, ho0, hr⟩ := hspec hc
      exact ⟨o, ho, ho0, hr⟩

/-- C7.  Every picture the decoder produces has exactly `width` columns,
every column has length `height`, and every cell of a column that is not
targeted by a post of that column's post stream still holds the
transparent index 255 it was initialised with. -/
theorem C7_picture_invariants (lump : List Nat) (P : Picture)
    (h : decodePicture lump = some P) :
    P.columns.length = P.width.toNat ∧
    (∀ col ∈ P.columns, col.length = P.height.toNat) ∧
    ∀ ci col, P.columns.get? ci = some col →
      ∃ offs off rows,
        columnOffsets lump P.width.toNat = some offs ∧
        offs.get? ci = some off ∧ 0 ≤ off ∧
        postRows lump off.toNat = some rows ∧
        ∀ r, r < P.height.toNat → r ∉ rows → col.get? r = some 255 := by
  unfold decodePicture at h
  split at h
  case isTrue => exact absurd h (by simp)
  case isFalse hlen8 =>
  dsimp only at h
  split at h
  case isTrue => exact absurd h (by simp)
  case isFalse hw =>
  split at h
  case isTrue => exact absurd h (by simp)
  case isFalse hh =>
  split at h
  case h_1 => exact absurd h (by simp)
  case h_2 offs hoffs =>
  split at h
  case h_1 => exact absurd h (by simp)
  case h_2 cols hcols =>
  cases h
  obtain ⟨hlen, hspec⟩ := decodeColumns_spec hcols
  have hofflen : offs.length = (i16 (lump.getD 0 0) (lump.getD 1 0)).toNat := by
    unfold columnOffsets at hoffs
    split at hoffs
    · cases hoffs; simp
    · exact absurd hoffs (by simp)
  refine ⟨by simp [hlen, hofflen], ?_, ?_⟩
  · intro col hmem
    obtain ⟨n, hn⟩ := List.get?_of_mem hmem
    obtain ⟨off, _, _, hrun⟩ := hspec hn
    obtain ⟨rows, _, hclen, _⟩ := runPostsF_spec hrun
    simp only [hclen, List.length_replicate]
  · intro ci col hc
    obtain ⟨off, hoff, hpos, hrun⟩ := hspec hc
    obtain ⟨rows, hrows, _, hget⟩ := runPostsF_spec hrun
    refine ⟨offs, off, rows, hoffs, hoff, hpos, hrows, fun r hr hnr => ?_⟩
    rw [hget r hnr]
    simp only at hr
    simp only [List.getD_eq_getElem?_getD] at hr ⊢
    simp only [List.get?_eq_getElem?, List.getElem?_replicate]
    rw [if_pos (by omega)]

/-- C7 witness: the invariants hold of the concrete picture decoded from
`lumpC7`. -/
theorem C7_picture_invariants_witness :
    decodePicture lumpC7 = some picC7 ∧
    (picC7.columns.length = picC7.width.toNat ∧
      (∀ col ∈ picC7.columns, col.length = picC7.height.toNat) ∧
      ∀ ci col, picC7.columns.get? ci = some col →
        ∃ offs off rows,
          columnOffsets lumpC7 picC7.width.toNat = some offs ∧
          offs.get? ci = some off ∧ 0 ≤ off ∧
          postRows lumpC7 off.toNat = some rows ∧
          ∀ r, r < picC7.height.toNat → r ∉ rows → col.get? r = some 255) :=
  ⟨rfl, C7_picture_invariants lumpC7 picC7 rfl⟩

/-- C10.  A name absent from the level index maps to directory index 0
(the Go zero value of the map read), `ReadLevel` raises no
level-not-found error, and it proceeds over directory entries 1 through
10, dispatching them by lump name as if they were that level's lumps. -/
theorem C10_missing_level_name (w : Archive) (name : String)
    (h : w.levels.lookup name = none) :
    levelIndex w name = 0 ∧
    readLevelLumps w name =
      mapOpt (fun i => (w.lumpInfos.get? i).map fun li => (i, li.name))
        (List.range' 1 10) := by
  have h0 : levelIndex w name = 0 := by simp [levelIndex, h]
  exact ⟨h0, by rw [readLevelLumps, h0]⟩

/-- C10 witness: looking up the absent name `E2M2` in `archC10` yields
index 0 and the ten entries after index 0 are dispatched. -/
theorem C10_missing_level_name_witness :
    archC10.levels.lookup "E2M2" = none ∧
    (levelIndex archC10 "E2M2" = 0 ∧
      readLevelLumps archC10 "E2M2" =
        mapOpt (fun i => (archC10.lumpInfos.get? i).map fun li => (i, li.name))
          (List.range' 1 10)) :=
  ⟨rfl, C10_missing_level_name archC10 "E2M2" rfl⟩

/-- Helper: a successful `mapOpt` relates outputs to inputs position by
position. -/
theorem mapOpt_get? {α β : Type _} {f : α → Option β} :
    ∀ {xs : List α} {ys : List β}, mapOpt f xs = some ys →
      ∀ {i : Nat} {y : β}, ys.get? i = some y →
        ∃ x, xs.get? i = some x ∧ f x = some y := by
  intro xs
  induction xs with
  | nil =>
    intro ys h i y hy
    cases h
    simp at hy
  | cons x xs ih =>
    intro ys h i y hy
    simp only [mapOpt] at h
    split at h
    case h_1 => exact absurd h (by simp)
    case h_2 y0 hfx =>
    split at h
    case h_1 => exact absurd h (by simp)
    case h_2 ys0 hrest =>
    cases h
    match i with
    | 0 =>
      cases hy
      exact ⟨x, rfl, hfx⟩
    | i + 1 =>
      obtain ⟨x1, hx1, hfx1⟩ := ih hrest hy
      exact ⟨x1, hx1, hfx1⟩

/-- Helper: a successful `idxGet` is a successful in-range `get?`. -/
theorem idxGet_eq_some {α : Type _} {xs : List α} {i : Int} {v : α}
    (h : idxGet xs i = some v) : xs.get? i.toNat = some v := by
  unfold idxGet at h
  split at h
  · exact h
  · exact absurd h (by simp)

/-- Helper: every side produced by the side pass carries a sector
reference. -/
theorem linkSides_sector_isSome {numSectors : Nat} {sides sides2 : List Side}
    (h : linkSides numSectors sides = some sides2) :
    ∀ {k : Nat} {sd : Side}, sides2.get? k = some sd → sd.sector.isSome := by
  intro k sd hk
  obtain ⟨sd0, _, hf⟩ := mapOpt_get? h hk
  unfold linkSide at hf
  split at hf
  · cases hf; rfl
  · exact absurd hf (by simp)

/-- C9.  After linking, every line segment's front sector is the sector
of the side selected by its direction flag (the left side of its line
when the flag is set, otherwise the right side); its back sector is
present if and only if the line is two-sided, and is then the sector of
the opposite side.  The hypothesis on the raw segments records that the
segment decoder leaves `BackSector` nil. -/
theorem C9_segment_sectors (l lr : Level) (h : setReferences l = some lr)
    (hraw : ∀ s0 ∈ l.segs, s0.backSector = none)
    (i : Nat) (s : Seg) (hs : lr.segs.get? i = some s) :
    ∃ line side,
      idxGet lr.lines s.lineNum = some line ∧
      idxGet lr.sides (if s.isSideL then line.sideLNum else line.sideRNum) = some side ∧
      s.frontSector = side.sector ∧ side.sector.isSome ∧
      (s.backSector.isSome ↔ line.twoSided = true) ∧
      (line.twoSided = true → ∃ opp,
        idxGet lr.sides (if s.isSideL then line.sideRNum else line.sideLNum) = some opp ∧
        s.backSector = opp.sector) := by
  unfold setReferences at h
  split at h
  case h_1 => exact absurd h (by simp)
  case h_2 sides hsides =>
  split at h
  case h_1 => exact absurd h (by simp)
  case h_2 lines hlines =>
  split at h
  case h_1 => exact absurd h (by simp)
  case h_2 segs hsegs =>
  cases h
  obtain ⟨s0, hs0, hlink⟩ := mapOpt_get? hsegs hs
  unfold linkSegment at hlink
  split at hlink
  case h_2 => exact absurd hlink (by simp)
  case h_1 v1 v2 hv1 hv2 =>
  split at hlink
  case h_1 => exact absurd hlink (by simp)
  case h_2 line hline =>
  split at hlink
  case h_1 => exact absurd hlink (by simp)
  case h_2 side hside =>
  split at hlink
  case h_1 => exact absurd hlink (by simp)
  case h_2 back hback =>
  cases hlink
  refine ⟨line, side, hline, hside, rfl,
    linkSides_sector_isSome hsides (idxGet_eq_some hside), ?_, ?_⟩
  · by_cases htw : line.twoSided = true
    · rw [if_pos htw] at hback
      simp only [htw, iff_true]
      cases hopp : idxGet sides (if s0.isSideL then line.sideRNum else line.sideLNum) with
      | none => rw [hopp] at hback; exact absurd hback (by simp)
      | some opp =>
        rw [hopp] at hback
        cases hback
        exact linkSides_sector_isSome hsides (idxGet_eq_some hopp)
    · rw [if_neg htw] at hback
      cases hback
      have hmem := List.get?_mem hs0
      rw [hraw s0 hmem]
      simp [htw]
  · intro htw
    rw [if_pos htw] at hback
    cases hopp : idxGet sides (if s0.isSideL then line.sideRNum else line.sideLNum) with
    | none => rw [hopp] at hback; exact absurd hback (by simp)
    | some opp =>
      rw [hopp] at hback
      cases hback
      exact ⟨opp, rfl, rfl⟩

/-- C9 witness: the property instantiated on the linked level
`segLvlLinked` and its single segment. -/
theorem C9_segment_sectors_witness :
    setReferences segLvl = some segLvlLinked ∧
    (∃ line side,
      idxGet segLvlLinked.lines segLinked.lineNum = some line ∧
      idxGet segLvlLinked.sides
        (if segLinked.isSideL then line.sideLNum else line.sideRNum) = some side ∧
      segLinked.frontSector = side.sector ∧ side.sector.isSome ∧
      (segLinked.backSector.isSome ↔ line.twoSided = true) ∧
      (line.twoSided = true → ∃ opp,
        idxGet segLvlLinked.sides
          (if segLinked.isSideL then line.sideRNum else line.sideLNum) = some opp ∧
        segLinked.backSector = opp.sector)) := by
  have hset : setReferences segLvl = some segLvlLinked := by
    norm_num [setReferences, linkSides, linkSide, linkLine, linkSegment, linkSectors,
      linkSector, mapOpt, idxGet, segLvl, segLvlLinked, min_def, max_def, newBBox,
      BoundBox.add, List.enum, MaxRadius, ratTrunc]
  have hraw : ∀ s0 ∈ segLvl.segs, s0.backSector = none := by
    intro s0 hs0
    simp only [segLvl, List.mem_singleton] at hs0
    subst hs0
    rfl
  exact ⟨hset, C9_segment_sectors segLvl segLvlLinked hset hraw 0 segLinked rfl⟩

/-- Helper: `copyInto` preserves the length when the start is in range. -/
theorem copyInto_length {dst src : List Nat} {start : Nat} (h : start ≤ dst.length) :
    (copyInto dst start src).length = dst.length := by
  unfold copyInto
  simp only [List.length_append, List.length_take, List.length_drop]
  omega

/-- Helper: `copyInto` changes only rows in
`[start, start + min src.length (dst.length - start))`. -/
theorem copyInto_get?_outside {dst src : List Nat} {start r : Nat}
    (hs : start ≤ dst.length)
    (hr : r < start ∨ start + min src.length (dst.length - start) ≤ r) :
    (copyInto dst start src).get? r = dst.get? r := by
  unfold copyInto
  simp only [List.get?_eq_getElem?]
  rcases hr with hr | hr
  · rw [List.getElem?_append,
      if_pos (by simp only [List.length_append, List.length_take]; omega),
      List.getElem?_append, if_pos (by simp only [List.length_take]; omega)]
    exact List.getElem?_take_of_lt hr
  · by_cases hlen : r < dst.length
    · rw [List.getElem?_append,
        if_neg (by simp only [List.length_append, List.length_take]; omega),
        List.getElem?_drop]
      congr 1
      simp only [List.length_append, List.length_take]
      omega
    · rw [List.getElem?_eq_none (by
          simp only [List.length_append, List.length_take, List.length_drop]; omega),
        List.getElem?_eq_none (by omega)]

/-- Helper: a successful `blitCols` run preserves the canvas shape and
every cell whose row lies outside every remaining patch column's copy
window. -/
theorem blitCols_spec {xOff : Int} {dyo syo height : Nat} :
    ∀ {pcols : List (List Nat)} {y0 : Nat} {cols cols2 : List (List Nat)},
      blitCols xOff dyo syo pcols y0 cols = some cols2 →
      (∀ col ∈ cols, col.length = height) →
      cols2.length = cols.length ∧ (∀ col ∈ cols2, col.length = height) ∧
      ∀ x r : Nat,
        (∀ y c, pcols.get? y = some c → (x : Int) = xOff + ((y0 + y : Nat) : Int) →
          ¬(dyo ≤ r ∧ r < dyo + min (c.length - syo) (height - dyo))) →
        (cols2.get? x).bind (fun col => col.get? r) =
          (cols.get? x).bind (fun col => col.get? r) := by
  intro pcols
  induction pcols with
  | nil =>
    intro y0 cols cols2 h hshape
    cases h
    exact ⟨rfl, hshape, fun x r _ => rfl⟩
  | cons c rest ih =>
    intro y0 cols cols2 h hshape
    simp only [blitCols] at h
    split at h
    case isFalse hout =>
      obtain ⟨h1, h2, h3⟩ := ih h hshape
      refine ⟨h1, h2, fun x r hx => ?_⟩
      refine h3 x r fun y cy hy hxy => ?_
      exact hx (y + 1) cy (by simpa using hy) (hxy.trans (by push_cast; ring))
    case isTrue hin =>
    split at h
    case h_1 => exact absurd h (by simp)
    case h_2 dst hdst =>
    split at h
    case isFalse => exact absurd h (by simp)
    case isTrue hcond =>
    have hxval : ((xOff + (y0 : Int)).toNat : Int) = xOff + (y0 : Int) :=
      Int.toNat_of_nonneg hin.1
    have hdstlen : dst.length = height := hshape dst (List.get?_mem hdst)
    have hshapeB : ∀ col ∈ cols.set (xOff + (y0 : Int)).toNat
        (copyInto dst dyo (c.drop syo)), col.length = height := by
      intro col hc
      rcases List.mem_or_eq_of_mem_set hc with hc | hc
      · exact hshape col hc
      · rw [hc, copyInto_length (by omega)]
        exact hdstlen
    obtain ⟨h1, h2, h3⟩ := ih h hshapeB
    rw [List.length_set] at h1
    obtain ⟨hin1, hin2⟩ := hin
    obtain ⟨hc1, hc2⟩ := hcond
    refine ⟨h1, h2, fun x r hx => ?_⟩
    have hrest : (cols2.get? x).bind (fun col => col.get? r) =
        ((cols.set (xOff + (y0 : Int)).toNat (copyInto dst dyo (c.drop syo))).get? x).bind
          (fun col => col.get? r) := by
      refine h3 x r fun y cy hy hxy => ?_
      exact hx (y + 1) cy (by simpa using hy) (hxy.trans (by push_cast; ring))
    rw [hrest]
    by_cases hxeq : x = (xOff + (y0 : Int)).toNat
    · subst hxeq
      have hlt : (xOff + (y0 : Int)).toNat < cols.length := by omega
      have hxint : ((xOff + (y0 : Int)).toNat : Int) = xOff + ((y0 + 0 : Nat) : Int) := by
        rw [hxval]
        push_cast
        ring
      have hwin := hx 0 c rfl hxint
      have hsetv : (cols.set (xOff + (y0 : Int)).toNat
          (copyInto dst dyo (c.drop syo))).get? (xOff + (y0 : Int)).toNat =
          some (copyInto dst dyo (c.drop syo)) := by
        rw [List.get?_eq_getElem?]
        exact List.getElem?_set_self hlt
      rw [hsetv, hdst, Option.some_bind, Option.some_bind]
      have hout2 : r < dyo ∨ dyo + min ((c.drop syo).length) (dst.length - dyo) ≤ r := by
        rw [List.length_drop, hdstlen]
        omega
      exact copyInto_get?_outside (by omega) hout2
    · simp only [List.get?_eq_getElem?]
      rw [List.getElem?_set_ne (by omega)]

/-- Helper: a successful patch blit preserves the canvas shape and every
cell the patch does not cover. -/
theorem blitPatch_spec {height : Nat} {cols cols2 : List (List Nat)} {p : Patch}
    (h : blitPatch cols p = some cols2)
    (hshape : ∀ col ∈ cols, col.length = height) :
    cols2.length = cols.length ∧ (∀ col ∈ cols2, col.length = height) ∧
    ∀ x r : Nat, ¬ patchCovers height p x r →
      (cols2.get? x).bind (fun col => col.get? r) =
        (cols.get? x).bind (fun col => col.get? r) := by
  unfold blitPatch at h
  split at h
  case h_1 => exact absurd h (by simp)
  case h_2 pcols hpic =>
  obtain ⟨h1, h2, h3⟩ := blitCols_spec h hshape
  refine ⟨h1, h2, fun x r hnc => ?_⟩
  refine h3 x r fun y cy hy hxy => fun hcontra => ?_
  exact hnc ⟨pcols, cy, y, hpic, hy, by simpa using hxy, hcontra.1, hcontra.2⟩

/-- Helper: folding blits over an already failed canvas stays failed. -/
theorem blitFold_none {patches : List Patch} :
    patches.foldl (fun acc p => acc.bind fun cols => blitPatch cols p) none = none := by
  induction patches with
  | nil => rfl
  | cons p ps ih => simpa using ih

/-- Helper: the patch fold preserves the canvas shape and every cell no
patch covers. -/
theorem compositeFold_spec {height : Nat} :
    ∀ {patches : List Patch} {cols0 cols2 : List (List Nat)},
      patches.foldl (fun acc p => acc.bind fun cols => blitPatch cols p) (some cols0) =
        some cols2 →
      (∀ col ∈ cols0, col.length = height) →
      cols2.length = cols0.length ∧ (∀ col ∈ cols2, col.length = height) ∧
      ∀ x r : Nat, (∀ p ∈ patches, ¬ patchCovers height p x r) →
        (cols2.get? x).bind (fun col => col.get? r) =
          (cols0.get? x).bind (fun col => col.get? r) := by
  intro patches
  induction patches with
  | nil =>
    intro cols0 cols2 h hshape
    cases h
    exact ⟨rfl, hshape, fun x r _ => rfl⟩
  | cons p ps ih =>
    intro cols0 cols2 h hshape
    rw [List.foldl_cons] at h
    simp only [Option.some_bind] at h
    cases hblit : blitPatch cols0 p with
    | none => rw [hblit, blitFold_none] at h; exact absurd h (by simp)
    | some cols1 =>
      rw [hblit] at h
      obtain ⟨b1, b2, b3⟩ := blitPatch_spec hblit hshape
      obtain ⟨h1, h2, h3⟩ := ih h b2
      refine ⟨by rw [h1, b1], h2, fun x r hp => ?_⟩
      rw [h3 x r fun q hq => hp q (by simp [hq]), b3 x r (hp p (by simp))]

/-- C5 counterexample.  The claim — every cell of a composite texture not
covered by any patch blit equals the transparent index 255 — is false:
the 1×1 texture with no patches decodes to the single cell 0, the zero
byte `make` fills, which no patch covers. -/
theorem C5_uncovered_cell_counterexample :
    ¬ (∀ (width height : Nat) (patches : List Patch) (cols : List (List Nat)),
        compositePicture width height patches = some cols →
        ∀ x r col v, cols.get? x = some col → col.get? r = some v →
          (∀ p ∈ patches, ¬ patchCovers height p x r) → v = 255) := by
  intro hcl
  have h := hcl 1 1 [] [[0]] rfl 0 0 [0] 0 rfl rfl (by intro p hp; simp at hp)
  exact absurd h (by decide)

/-- C5 (amended).  Every composite texture picture has exactly `width`
columns of `height` cells each, and every cell not covered by any patch
blit holds the byte 0 that `make` zero-fills — not the transparent
index. -/
theorem C5_composite_shape_uncovered_zero (width height : Nat) (patches : List Patch)
    (cols : List (List Nat)) (h : compositePicture width height patches = some cols) :
    cols.length = width ∧ (∀ col ∈ cols, col.length = height) ∧
    ∀ x r col v, cols.get? x = some col → col.get? r = some v →
      (∀ p ∈ patches, ¬ patchCovers height p x r) → v = 0 := by
  unfold compositePicture at h
  have hshape0 : ∀ col ∈ List.replicate width (List.replicate height (0 : Nat)),
      col.length = height := by
    intro col hc
    rw [List.eq_of_mem_replicate hc]
    simp
  obtain ⟨h1, h2, h3⟩ := compositeFold_spec h hshape0
  refine ⟨by simpa using h1, h2, fun x r col v hx hr hnc => ?_⟩
  have hcell := h3 x r hnc
  rw [hx] at hcell
  simp only [Option.some_bind] at hcell
  rw [hr] at hcell
  have hxlt : x < width := by
    have hxl : x < cols.length := by
      by_contra hge
      have hn : cols.get? x = none := by
        rw [List.get?_eq_getElem?, List.getElem?_eq_none (by omega)]
      rw [hn] at hx
      exact absurd hx (by simp)
    have hl := h1
    simp only [List.length_replicate] at hl
    omega
  have hrlt : r < height := by
    have hclen : col.length = height := h2 col (List.get?_mem hx)
    by_contra hge
    have hn : col.get? r = none := by
      rw [List.get?_eq_getElem?, List.getElem?_eq_none (by omega)]
    rw [hn] at hr
    exact absurd hr (by simp)
  simp only [List.get?_eq_getElem?, List.getElem?_replicate, hxlt, if_true,
    Option.some_bind, hrlt] at hcell
  simpa using hcell

/-- C5 witness: the amended claim instantiated on the 2×2 texture with
one 1×1 patch of value 5 at (0,0): the three uncovered cells hold 0. -/
theorem C5_composite_witness :
    compositePicture 2 2 [patchC5] = some [[5, 0], [0, 0]] ∧
    (([[5, 0], [0, 0]] : List (List Nat)).length = 2 ∧
      (∀ col ∈ ([[5, 0], [0, 0]] : List (List Nat)), col.length = 2) ∧
      ∀ x r col v, ([[5, 0], [0, 0]] : List (List Nat)).get? x = some col →
        col.get? r = some v →
        (∀ p ∈ [patchC5], ¬ patchCovers 2 p x r) → v = 0) :=
  ⟨rfl, C5_composite_shape_uncovered_zero 2 2 [patchC5] [[5, 0], [0, 0]] rfl⟩

end Wad
